import Mathlib

/-!
Verification of the `trace` Go package (deterministic computation tracing).

The embedding models the package shallowly:

* Go byte slices are `List Nat` (each entry < 256).
* `crypto/sha256` is implemented over byte lists (FIPS 180-4), with the
  incremental `h.Write` calls modelled as accumulation of the fed bytes.
* Go maps and pointers are reference values: a `Heap` holds the map objects
  and the mutable pointees, and map-valued struct fields store addresses.
  This is what makes the aliasing behaviour of `Step.WithMetadata`,
  `NewStep` and `copyInputs` expressible.
* Wall-clock timestamps are passed in explicitly as `Nat` arguments.
* Fallible operations return the Go error message in an `Option String`
  (`none` = the Go `nil` error), paired with the post-call state.
-/

/-- Word reduction modulo 2^32, used for all 32-bit arithmetic of SHA-256. -/
def w32 (n : Nat) : Nat := n % 4294967296

/-- Right rotation of a 32-bit word by `n` bits. -/
def rotr32 (n x : Nat) : Nat := x / 2 ^ n + x % 2 ^ n * 2 ^ (32 - n)

/-- Logical right shift of a 32-bit word by `n` bits. -/
def shr32 (n x : Nat) : Nat := x / 2 ^ n

/-- SHA-256 choice function Ch(x,y,z). -/
def ch256 (x y z : Nat) : Nat := (x &&& y) ^^^ ((x ^^^ 4294967295) &&& z)

/-- SHA-256 majority function Maj(x,y,z). -/
def maj256 (x y z : Nat) : Nat := (x &&& y) ^^^ (x &&& z) ^^^ (y &&& z)

/-- SHA-256 big sigma 0. -/
def bsig0 (x : Nat) : Nat := rotr32 2 x ^^^ rotr32 13 x ^^^ rotr32 22 x

/-- SHA-256 big sigma 1. -/
def bsig1 (x : Nat) : Nat := rotr32 6 x ^^^ rotr32 11 x ^^^ rotr32 25 x

/-- SHA-256 small sigma 0. -/
def ssig0 (x : Nat) : Nat := rotr32 7 x ^^^ rotr32 18 x ^^^ shr32 3 x

/-- SHA-256 small sigma 1. -/
def ssig1 (x : Nat) : Nat := rotr32 17 x ^^^ rotr32 19 x ^^^ shr32 10 x

/-- The 64 SHA-256 round constants of FIPS 180-4, written in decimal. -/
def K256 : List Nat :=
  [1116352408, 1899447441, 3049323471, 3921009573, 961987163, 1508970993,
   2453635748, 2870763221, 3624381080, 310598401, 607225278, 1426881987,
   1925078388, 2162078206, 2614888103, 3248222580, 3835390401, 4022224774,
   264347078, 604807628, 770255983, 1249150122, 1555081692, 1996064986,
   2554220882, 2821834349, 2952996808, 3210313671, 3336571891, 3584528711,
   113926993, 338241895, 666307205, 773529912, 1294757372, 1396182291,
   1695183700, 1986661051, 2177026350, 2456956037, 2730485921, 2820302411,
   3259730800, 3345764771, 3516065817, 3600352804, 4094571909, 275423344,
   430227734, 506948616, 659060556, 883997877, 958139571, 1322822218,
   1537002063, 1747873779, 1955562222, 2024104815, 2227730452, 2361852424,
   2428436474, 2756734187, 3204031479, 3329325298]

/-- The SHA-256 initial hash state of FIPS 180-4, written in decimal. -/
def H256 : List Nat :=
  [1779033703, 3144134277, 1013904242, 2773480762,
   1359893119, 2600822924, 528734635, 1541459225]

/-- Big-endian byte encoding of `n` on `k` bytes. -/
def natBytesBE (k n : Nat) : List Nat :=
  (List.range k).map (fun i => n / 2 ^ (8 * (k - 1 - i)) % 256)

/-- Big-endian word from a byte list. -/
def natFromBytesBE (bs : List Nat) : Nat := bs.foldl (fun a b => a * 256 + b) 0

/-- SHA-256 message padding: append 0x80, zeros to 56 mod 64, then the
bit length on 8 big-endian bytes. -/
def padMessage (msg : List Nat) : List Nat :=
  let z := (120 - (msg.length + 1) % 64) % 64
  msg ++ [128] ++ List.replicate z 0 ++ natBytesBE 8 (8 * msg.length)

/-- Split a byte list into successive chunks of 64 bytes (structural on fuel). -/
def toBlocksFuel : Nat → List Nat → List (List Nat)
  | 0, _ => []
  | _, [] => []
  | fuel + 1, l => l.take 64 :: toBlocksFuel fuel (l.drop 64)

/-- Split a byte list into 64-byte blocks. -/
def toBlocks (l : List Nat) : List (List Nat) := toBlocksFuel l.length l

/-- Parse one 64-byte block into its 16 big-endian 32-bit words. -/
def blockWords (b : List Nat) : List Nat :=
  (List.range 16).map (fun i => natFromBytesBE ((b.drop (4 * i)).take 4))

/-- Extend the 16 block words to the 64-entry SHA-256 message schedule. -/
def buildW (m : List Nat) : List Nat :=
  (List.range 64).foldl
    (fun w i =>
      if i < 16 then w ++ [m.getD i 0]
      else
        w ++ [w32 (ssig1 (w.getD (i - 2) 0) + w.getD (i - 7) 0 +
                   ssig0 (w.getD (i - 15) 0) + w.getD (i - 16) 0)])
    []

/-- One SHA-256 compression round over the 8-word working state. -/
def round256 (w : List Nat) (st : List Nat) (i : Nat) : List Nat :=
  match st with
  | [a, b, c, d, e, f, g, hh] =>
    let t1 := w32 (hh + bsig1 e + ch256 e f g + K256.getD i 0 + w.getD i 0)
    let t2 := w32 (bsig0 a + maj256 a b c)
    [w32 (t1 + t2), a, b, c, w32 (d + t1), e, f, g]
  | st => st

/-- SHA-256 compression of one block into the running hash state. -/
def compress256 (st : List Nat) (m : List Nat) : List Nat :=
  let w := buildW m
  let out := (List.range 64).foldl (round256 w) st
  match st, out with
  | [h0, h1, h2, h3, h4, h5, h6, h7], [a, b, c, d, e, f, g, hh] =>
    [w32 (h0 + a), w32 (h1 + b), w32 (h2 + c), w32 (h3 + d),
     w32 (h4 + e), w32 (h5 + f), w32 (h6 + g), w32 (h7 + hh)]
  | st, _ => st

/-- SHA-256 digest (32 bytes) of a byte list, as in Go `crypto/sha256`. -/
def sha256 (msg : List Nat) : List Nat :=
  let st := (toBlocks (padMessage msg)).foldl (fun s b => compress256 s (blockWords b)) H256
  (st.map (natBytesBE 4)).flatten

/-- Lowercase hex of a byte list, as Go `fmt.Sprintf("%x", bytes)` prints it. -/
def hexBytes (bs : List Nat) : String :=
  String.mk ((bs.map (fun b => [Nat.digitChar (b / 16), Nat.digitChar (b % 16)])).flatten)

/-- UTF-8 encoding of one character, byte by byte. -/
def utf8Char (c : Char) : List Nat :=
  let v := c.toNat
  if v < 128 then [v]
  else if v < 2048 then [192 + v / 64, 128 + v % 64]
  else if v < 65536 then [224 + v / 4096, 128 + v / 64 % 64, 128 + v % 64]
  else [240 + v / 262144, 128 + v / 4096 % 64, 128 + v / 64 % 64, 128 + v % 64]

/-- Bytes of a string, as Go `[]byte(s)` yields them (UTF-8). -/
def strBytes (s : String) : List Nat := (s.data.map utf8Char).flatten

/-!
The Go data model.  `Datum` is the universe of wrapped payloads the
embedding covers for the `interface{}` field `Value.Value`:

* `int`, `str`, `bool` — immutable Go values (`int`, `string`, `bool`);
* `ptr a` — a `*int` pointing at the mutable cell `a` of the heap, the
  representative mutable reference payload;
* `chanv a` — a `chan int`, the representative payload the JSON encoder
  rejects (`json: unsupported type`).

Go maps are reference objects, so `map[string]Value` and
`map[string]string` fields of the structs store heap addresses; a nil Go
map is `Option.none`.
-/

/-- Universe of wrapped Go payloads covered by the embedding. -/
inductive Datum where
  | int (n : Int)
  | str (s : String)
  | bool (b : Bool)
  | ptr (a : Nat)
  | chanv (a : Nat)
deriving DecidableEq, Repr

/-- Result of Go `fmt.Sprintf("%T", v)` on a wrapped payload. -/
def goTypeOf : Datum → String
  | .int _ => "int"
  | .str _ => "string"
  | .bool _ => "bool"
  | .ptr _ => "*int"
  | .chanv _ => "chan int"

/-- Result of Go `fmt.Sprintf("%v", v)` on a wrapped payload.  Pointers and
channels print as a hex address; the model renders the model address. -/
def goFormat : Datum → String
  | .int n => toString n
  | .str s => s
  | .bool b => if b then "true" else "false"
  | .ptr a => "0x" ++ String.mk (Nat.toDigits 16 a)
  | .chanv a => "0x" ++ String.mk (Nat.toDigits 16 a)

/-- Value represents an immutable value in a trace: the Go struct fields
`Type` and `Value` are `typ` and `val` here. -/
structure Value where
  typ : String
  val : Datum
deriving DecidableEq, Repr

/-- NewValue creates a new immutable Value from any input, tagging it with
its runtime type (`fmt.Sprintf("%T", v)`). -/
def NewValue (v : Datum) : Value :=
  { typ := goTypeOf v, val := v }

/-- String method of Value: `fmt.Sprintf("%v", v.Value)`. -/
def Value.string (v : Value) : String := goFormat v.val

/-- Heap of reference objects: `vmaps` are the `map[string]Value` objects,
`smaps` the `map[string]string` objects, `cells` the pointees of the
modelled `*int` references.  Addresses are list indices. -/
structure Heap where
  vmaps : List (List (String × Value))
  smaps : List (List (String × String))
  cells : List Int
deriving DecidableEq, Repr

/-- Contents of the `map[string]Value` object at address `a`. -/
def Heap.vget (h : Heap) (a : Nat) : List (String × Value) := h.vmaps.getD a []

/-- Overwrite the `map[string]Value` object at address `a`. -/
def Heap.vset (h : Heap) (a : Nat) (m : List (String × Value)) : Heap :=
  { h with vmaps := h.vmaps.set a m }

/-- Allocate a fresh `map[string]Value` object; returns the new heap and
the fresh address. -/
def Heap.vnew (h : Heap) (m : List (String × Value)) : Heap × Nat :=
  ({ h with vmaps := h.vmaps ++ [m] }, h.vmaps.length)

/-- Contents of the `map[string]string` object at address `a`. -/
def Heap.sget (h : Heap) (a : Nat) : List (String × String) := h.smaps.getD a []

/-- Overwrite the `map[string]string` object at address `a`. -/
def Heap.sset (h : Heap) (a : Nat) (m : List (String × String)) : Heap :=
  { h with smaps := h.smaps.set a m }

/-- Allocate a fresh `map[string]string` object. -/
def Heap.snew (h : Heap) (m : List (String × String)) : Heap × Nat :=
  ({ h with smaps := h.smaps ++ [m] }, h.smaps.length)

/-- Contents of a possibly-nil `map[string]Value` (a nil map reads as empty). -/
def mapVContents (h : Heap) : Option Nat → List (String × Value)
  | none => []
  | some a => h.vget a

/-- Contents of a possibly-nil `map[string]string`. -/
def mapSContents (h : Heap) : Option Nat → List (String × String)
  | none => []
  | some a => h.sget a

/-- Go map indexing `m[k]` for a key known to be present; absent keys give
the zero Value, as in Go. -/
def lookupD (m : List (String × Value)) (k : String) : Value :=
  match m with
  | [] => { typ := "", val := .int 0 }
  | (k1, v1) :: rest => if k1 = k then v1 else lookupD rest k

/-- Go map assignment `m[k] = v`: overwrite the binding if the key is
present, otherwise add it. -/
def assocSet {α : Type} (m : List (String × α)) (k : String) (v : α) : List (String × α) :=
  match m with
  | [] => [(k, v)]
  | (k1, v1) :: rest => if k1 = k then (k, v) :: rest else (k1, v1) :: assocSet rest k v

/-- Go `sort.Strings`: ascending lexicographic (byte-wise, which on UTF-8
agrees with the codepoint order Lean uses) sort of a key list. -/
def sortStrings (l : List String) : List String :=
  List.insertionSort (fun a b => a ≤ b) l

/-- Step represents a single computation step in a trace.  `inputs` and
`metadata` hold the addresses of the Go map objects (`none` is a nil map). -/
structure Step where
  operation : String
  description : String
  inputs : Option Nat
  output : Value
  timestamp : Nat
  metadata : Option Nat
deriving DecidableEq, Repr

/-- NewStep creates a new computation step.  The caller's inputs map is
stored as-is (the same reference), and a fresh empty metadata map is
allocated; `now` is the wall clock. -/
def NewStep (h : Heap) (operation : String) (inputs : Option Nat) (output : Value)
    (now : Nat) : Heap × Step :=
  let (h1, md) := h.snew []
  (h1, { operation := operation, description := "", inputs := inputs, output := output,
         timestamp := now, metadata := some md })

/-- WithDescription adds a human-readable description to the step.  The
receiver is a value copy, and `Description` is a plain string field. -/
def Step.WithDescription (s : Step) (desc : String) : Step :=
  { s with description := desc }

/-- WithMetadata adds metadata to the step: after the nil check the code
runs `s.Metadata[key] = value`, a write through the map reference the
receiver copy shares with the original step. -/
def Step.WithMetadata (h : Heap) (s : Step) (key value : String) : Heap × Step :=
  match s.metadata with
  | none =>
    let (h1, a) := h.snew []
    (h1.sset a (assocSet (h1.sget a) key value), { s with metadata := some a })
  | some a => (h.sset a (assocSet (h.sget a) key value), s)

/-- String method of Step: `"<operation>: <output>"` plus
`" (<description>)"` when the description is nonempty. -/
def Step.string (s : Step) : String :=
  let result := s.operation ++ ": " ++ s.output.string
  if s.description ≠ "" then result ++ " (" ++ s.description ++ ")" else result

/-- Trace represents a complete computation trace.  `inputs` is the address
of the trace's own map object and `metadata` the address of its metadata
map (`none` would be a nil map); `completed` is the unexported flag. -/
structure Trace where
  id : String
  name : String
  inputs : Nat
  steps : List Step
  result : Option Value
  startTime : Nat
  endTime : Option Nat
  metadata : Option Nat
  completed : Bool
deriving DecidableEq, Repr

/-- copyInputs creates a fresh map object holding the entries of the
caller's inputs map (a nil map copies to a fresh empty map), and returns
its address. -/
def copyInputs (h : Heap) (inputs : Option Nat) : Heap × Nat :=
  match inputs with
  | none => h.vnew []
  | some a => h.vnew (h.vget a)

/-- generateID creates a deterministic ID for the trace based on name and
inputs: a SHA-256 accumulator is fed the name bytes and then, looping over
the lexicographically sorted keys, each key's bytes followed by the
`%v` display of the key's wrapped payload; the result is
`"<name>-" ++` the hex of the first 8 digest bytes. -/
def generateID (h : Heap) (name : String) (inputs : Option Nat) : String :=
  let m := mapVContents h inputs
  let keys := sortStrings (m.map Prod.fst)
  let fed := keys.foldl
    (fun acc k => acc ++ strBytes k ++ strBytes (goFormat (lookupD m k).val))
    (strBytes name)
  name ++ "-" ++ hexBytes ((sha256 fed).take 8)

/-- NewTrace creates a new trace with the given name and inputs: the ID is
derived immediately, the inputs are copied into a fresh map object, an
empty metadata map is allocated, and the trace starts uncompleted. -/
def NewTrace (h : Heap) (name : String) (inputs : Option Nat) (now : Nat) : Heap × Trace :=
  let idv := generateID h name inputs
  let (h1, a) := copyInputs h inputs
  let (h2, md) := h1.snew []
  (h2, { id := idv, name := name, inputs := a, steps := [], result := none,
         startTime := now, endTime := none, metadata := some md, completed := false })

/-- AddStep records a computation step in the trace; on a completed trace
it returns the InvalidState error and leaves the trace as it was. -/
def Trace.AddStep (t : Trace) (step : Step) : Option String × Trace :=
  if t.completed then (some "cannot add step to completed trace", t)
  else (none, { t with steps := t.steps ++ [step] })

/-- SetResult sets the final result, captures the end time and marks the
trace completed; on a completed trace it returns the InvalidState error. -/
def Trace.SetResult (t : Trace) (result : Value) (now : Nat) : Option String × Trace :=
  if t.completed then (some "cannot set result on completed trace", t)
  else (none, { t with result := some result, endTime := some now, completed := true })

/-- IsCompleted returns true if the trace has been completed. -/
def Trace.IsCompleted (t : Trace) : Bool := t.completed

/-- WithMetadata adds metadata to the trace (lazily allocating a map object
after a nil check); on a completed trace it returns the InvalidState error
and changes nothing. -/
def Trace.WithMetadata (h : Heap) (t : Trace) (key value : String) :
    Option String × Heap × Trace :=
  if t.completed then (some "cannot add metadata to completed trace", h, t)
  else
    match t.metadata with
    | none =>
      let (h1, a) := h.snew []
      (none, h1.sset a (assocSet (h1.sget a) key value), { t with metadata := some a })
    | some a => (none, h.sset a (assocSet (h.sget a) key value), t)

/-- String method of Trace: header, inputs over sorted keys, steps in
append order when any exist, and the result line when set — accumulated
exactly as the Go code concatenates them. -/
def Trace.string (h : Heap) (t : Trace) : String :=
  let r1 := "Trace: " ++ t.name ++ " (ID: " ++ t.id ++ ")\n"
  let r2 := r1 ++ "Inputs:\n"
  let m := h.vget t.inputs
  let keys := sortStrings (m.map Prod.fst)
  let r3 := keys.foldl (fun acc k => acc ++ "  " ++ k ++ ": " ++ (lookupD m k).string ++ "\n") r2
  let r4 :=
    if t.steps.length > 0 then
      (t.steps.enum.foldl
        (fun acc p => acc ++ "  " ++ toString (p.1 + 1) ++ ". " ++ p.2.string ++ "\n")
        (r3 ++ "Steps:\n"))
    else r3
  match t.result with
  | some r => r4 ++ "Result: " ++ r.string ++ "\n"
  | none => r4

/-!
Model of `Trace.ToJSON`.  `encoding/json` output is modelled at the level
of the JSON document `json.MarshalIndent` prints (the indented text is an
injective rendering of that document): struct fields appear in declaration
order under their json tags, `omitempty` fields are dropped when empty,
map objects are marshalled with sorted keys, a nil map marshals to null,
a `*int` payload marshals as its pointee, and unsupported payloads (the
modelled `chan int`) make marshalling fail with the Go error text.
`time.Time` rendering is modelled as an injective rendering of the model
timestamp.
-/

/-- JSON documents. -/
inductive Json where
  | null : Json
  | bool (b : Bool) : Json
  | num (n : Int) : Json
  | str (s : String) : Json
  | arr (xs : List Json) : Json
  | obj (fields : List (String × Json)) : Json

/-- Structural map over `Except` for lists, used by the marshalling model. -/
def mapME {α β : Type} (f : α → Except String β) : List α → Except String (List β)
  | [] => .ok []
  | a :: rest => do
    let b ← f a
    let bs ← mapME f rest
    .ok (b :: bs)

/-- Marshalling of one wrapped payload: `json.Marshal` encodes ints,
strings and bools directly, dereferences a `*int`, and rejects channels. -/
def marshalDatum (h : Heap) : Datum → Except String Json
  | .int n => .ok (.num n)
  | .str s => .ok (.str s)
  | .bool b => .ok (.bool b)
  | .ptr a => .ok (.num (h.cells.getD a 0))
  | .chanv _ => .error "json: unsupported type: chan int"

/-- Marshalling of a Value: the object `{"type": ..., "value": ...}`. -/
def marshalValue (h : Heap) (v : Value) : Except String Json := do
  let dv ← marshalDatum h v.val
  .ok (.obj [("type", .str v.typ), ("value", dv)])

/-- Marshalling of a `map[string]Value` object: keys sorted, as
`encoding/json` sorts map keys. -/
def marshalVMap (h : Heap) (m : List (String × Value)) : Except String Json := do
  let fields ← mapME (fun k => do
      let jv ← marshalValue h (lookupD m k)
      .ok (k, jv))
    (sortStrings (m.map Prod.fst))
  .ok (.obj fields)

/-- Marshalling of a `map[string]string` object, keys sorted. -/
def marshalSMap (m : List (String × String)) : Json :=
  .obj ((sortStrings (m.map Prod.fst)).map
    (fun k => (k, .str ((m.lookup k).getD ""))))

/-- Rendering of a model timestamp, standing in for the RFC 3339 text
`encoding/json` emits for `time.Time`. -/
def goTimeString (n : Nat) : String := toString n

/-- Marshalling of a Step: fields in declaration order, `description` and
`metadata` dropped when empty (`omitempty`), nil inputs marshalling to
null. -/
def marshalStep (h : Heap) (s : Step) : Except String Json := do
  let inputsJ ← match s.inputs with
    | none => .ok Json.null
    | some a => marshalVMap h (h.vget a)
  let outJ ← marshalValue h s.output
  let f1 := [("operation", Json.str s.operation)]
  let f2 := if s.description ≠ "" then f1 ++ [("description", Json.str s.description)] else f1
  let f3 := f2 ++ [("inputs", inputsJ), ("output", outJ),
                   ("timestamp", Json.str (goTimeString s.timestamp))]
  let f4 := match mapSContents h s.metadata with
    | [] => f3
    | md => f3 ++ [("metadata", marshalSMap md)]
  .ok (.obj f4)

/-- ToJSON returns the trace as a JSON document (the unexported
`completed` flag is not marshalled; `result`, `end_time` and `metadata`
are dropped when empty), or the marshalling error. -/
def Trace.ToJSON (h : Heap) (t : Trace) : Except String Json := do
  let inputsJ ← marshalVMap h (h.vget t.inputs)
  let stepsJ ← mapME (marshalStep h) t.steps
  let f1 := [("id", Json.str t.id), ("name", Json.str t.name), ("inputs", inputsJ),
             ("steps", Json.arr stepsJ)]
  let f2 ← match t.result with
    | none => .ok f1
    | some r => do
      let rj ← marshalValue h r
      .ok (f1 ++ [("result", rj)])
  let f3 := f2 ++ [("start_time", Json.str (goTimeString t.startTime))]
  let f4 := match t.endTime with
    | none => f3
    | some e => f3 ++ [("end_time", Json.str (goTimeString e))]
  let f5 := match mapSContents h t.metadata with
    | [] => f4
    | md => f4 ++ [("metadata", marshalSMap md)]
  .ok (.obj f5)

/-- Success test on a marshalling result (the Go error is nil). -/
def exceptOk {α : Type} : Except String α → Bool
  | .ok _ => true
  | .error _ => false

/-- Field access in a JSON object. -/
def Json.field (k : String) : Json → Option Json
  | .obj fields => fields.lookup k
  | _ => none

/-- Numeric payload of a JSON document. -/
def Json.getNum : Json → Option Int
  | .num n => some n
  | _ => none

/-- Document produced by ToJSON, when it succeeds. -/
def jsonDoc {α : Type} : Except String α → Option α
  | .ok j => some j
  | .error _ => none

/-- Marshalability of a wrapped payload: everything except the payload
kinds `encoding/json` rejects. -/
def Datum.marshalable : Datum → Bool
  | .chanv _ => false
  | _ => true

/-- All wrapped payloads reachable from the trace document are
marshalable: the trace inputs, each step's inputs and output, and the
result. -/
def Trace.jsonSupported (h : Heap) (t : Trace) : Bool :=
  ((h.vget t.inputs).map Prod.snd).all (fun v => v.val.marshalable) &&
  t.steps.all (fun s =>
    ((mapVContents h s.inputs).map Prod.snd).all (fun v => v.val.marshalable) &&
    s.output.val.marshalable) &&
  (match t.result with
   | none => true
   | some r => r.val.marshalable)

/-!
Spec-side definitions, for the refinement claims: `deriveID` renders §4.4
of the specification word for word, `traceDisplaySpec` the display format
of §4.3, to be compared with `generateID` and `Trace.string`.
-/

/-- Identifier derivation as the specification words it: the digest of the
name bytes concatenated with, per sorted key, the key bytes and the
display text of the wrapped payload; then `"<name>-<hex of first 8 digest
bytes>"`. -/
def deriveID (h : Heap) (name : String) (inputs : Option Nat) : String :=
  let m := mapVContents h inputs
  let keys := sortStrings (m.map Prod.fst)
  let stream := strBytes name ++
    (keys.map (fun k => strBytes k ++ strBytes (goFormat (lookupD m k).val))).flatten
  name ++ "-" ++ hexBytes ((sha256 stream).take 8)

/-- Concatenation of a list of lines. -/
def strConcat (l : List String) : String := l.foldr (fun a b => a ++ b) ""

/-- One input line of the display format. -/
def inputLine (m : List (String × Value)) (k : String) : String :=
  "  " ++ k ++ ": " ++ (lookupD m k).string ++ "\n"

/-- One numbered step line of the display format: the step display form
`"<operation>: <output-display>"` suffixed with `" (<description>)"`
exactly when a description is present. -/
def stepLine (i : Nat) (s : Step) : String :=
  "  " ++ toString (i + 1) ++ ". " ++
  (s.operation ++ ": " ++ s.output.string ++
   (if s.description = "" then "" else " (" ++ s.description ++ ")")) ++ "\n"

/-- The display format as the specification describes it: header line,
inputs section with keys sorted, steps section only when a step exists
(numbered, append order), result line only when the result is set. -/
def traceDisplaySpec (h : Heap) (t : Trace) : String :=
  "Trace: " ++ t.name ++ " (ID: " ++ t.id ++ ")\n" ++
  "Inputs:\n" ++
  strConcat ((sortStrings ((h.vget t.inputs).map Prod.fst)).map
    (fun k => inputLine (h.vget t.inputs) k)) ++
  (if t.steps = [] then ""
   else "Steps:\n" ++ strConcat (t.steps.enum.map (fun p => stepLine p.1 p.2))) ++
  (match t.result with
   | none => ""
   | some r => "Result: " ++ r.string ++ "\n")

/-!
Concrete objects used by the witness and counterexample theorems.
-/

/-- Heap holding the same two-entry input mapping at two addresses, with
the two insertion orders. -/
def hEx : Heap :=
  ⟨[[("a", NewValue (.int 1)), ("b", NewValue (.int 2))],
    [("b", NewValue (.int 2)), ("a", NewValue (.int 1))]], [], []⟩

/-- Empty heap. -/
def hEmpty : Heap := ⟨[], [], []⟩

/-- Trace used by the lifecycle witness (created with nil inputs). -/
def tC2a : Trace := (NewTrace hEmpty "test" none 0).2

/-- The lifecycle witness trace after its first SetResult call. -/
def tC2b : Trace := (tC2a.SetResult (NewValue (.int 30)) 1).2

/-- Step fed to the completed trace in the lifecycle witness. -/
def stepC2 : Step :=
  { operation := "add", description := "", inputs := none,
    output := NewValue (.int 30), timestamp := 2, metadata := none }

/-- Step with its freshly allocated (empty, shared) metadata map, for the
WithMetadata aliasing counterexample. -/
def stepC3 : Heap × Step := NewStep hEmpty "add" none (NewValue (.int 1)) 0

/-- Result of calling WithMetadata on that step. -/
def stepC3b : Heap × Step := Step.WithMetadata stepC3.1 stepC3.2 "author" "test"

/-- Heap whose single input mapping wraps a `*int` pointing at cell 0
(which holds 1): the payload the caller can still mutate. -/
def hC4 : Heap := ⟨[[("a", { typ := "*int", val := Datum.ptr 0 })]], [], [1]⟩

/-- Trace created over the `*int` input, with the post-creation heap. -/
def trC4 : Heap × Trace := NewTrace hC4 "test" (some 0) 0

/-- The heap after the caller mutates the shared pointee from 1 to 99. -/
def hC4m : Heap := { trC4.1 with cells := trC4.1.cells.set 0 99 }

/-- Path to the marshalled numeric payload of input `a` in a trace
document. -/
def inputANum (e : Except String Json) : Option Int :=
  (((jsonDoc e).bind (Json.field "inputs")).bind (Json.field "a")).bind
    (fun j => (Json.field "value" j).bind Json.getNum)

/-- Heap whose input mappings wrap the integer 10 and the string "10":
different type tags, identical display text. -/
def hC6 : Heap := ⟨[[("a", NewValue (.int 10))], [("a", NewValue (.str "10"))]], [], []⟩

/-- Two traces over the two insertion orders of the same mapping, agreeing
on every displayed field except the inputs address. -/
def tC8a : Trace :=
  { id := "test-a29cf4754f8012e9", name := "test", inputs := 0, steps := [], result := none,
    startTime := 0, endTime := none, metadata := none, completed := false }

/-- The companion trace reading the permuted mapping. -/
def tC8b : Trace := { tC8a with inputs := 1 }

/-- Heap whose single input mapping wraps a `chan int`, the payload
`encoding/json` rejects. -/
def hC9 : Heap := ⟨[[("c", { typ := "chan int", val := Datum.chanv 0 })]], [], []⟩

/-- Trace created over the channel input. -/
def trC9 : Heap × Trace := NewTrace hC9 "test" (some 0) 0

/-!
Helper lemmas.
-/

/-- A left fold appending two byte chunks per key is the initial
accumulator followed by the flattened per-key chunks. -/
theorem foldl_feed2 (g1 g2 : String → List Nat) :
    ∀ (l : List String) (acc : List Nat),
      l.foldl (fun a k => a ++ g1 k ++ g2 k) acc =
        acc ++ (l.map (fun k => g1 k ++ g2 k)).flatten := by
  intro l
  induction l with
  | nil => intro acc; simp
  | cons k rest ih =>
    intro acc
    rw [List.foldl_cons, ih]
    simp [List.append_assoc]

/-- A left fold appending one rendered line per element is the initial
accumulator followed by the concatenated lines. -/
theorem foldl_strConcat {α : Type} (f : α → String) :
    ∀ (l : List α) (acc : String),
      l.foldl (fun a k => a ++ f k) acc = acc ++ strConcat (l.map f) := by
  intro l
  induction l with
  | nil => intro acc; simp [strConcat]
  | cons k rest ih => intro acc; simp [strConcat, ih, String.append_assoc]

/-- Sorting by `sort.Strings` gives the same list on any two permutations
of the key list. -/
theorem sortStrings_perm {l1 l2 : List String} (hp : l1.Perm l2) :
    sortStrings l1 = sortStrings l2 := by
  haveI : IsAntisymm String (fun a b => a ≤ b) := ⟨fun a b h1 h2 => le_antisymm h1 h2⟩
  haveI : IsTotal String (fun a b => a ≤ b) := ⟨fun a b => le_total a b⟩
  haveI : IsTrans String (fun a b => a ≤ b) := ⟨fun a b c h1 h2 => le_trans h1 h2⟩
  unfold sortStrings
  refine List.eq_of_perm_of_sorted ?_
    (List.sorted_insertionSort _ l1) (List.sorted_insertionSort _ l2)
  exact (List.perm_insertionSort _ l1).trans (hp.trans (List.perm_insertionSort _ l2).symm)

/-- Membership is preserved by the key sort. -/
theorem mem_sortStrings {k : String} {l : List String} :
    k ∈ sortStrings l ↔ k ∈ l :=
  List.mem_insertionSort _

/-- Shape of the Step display form: operation, output display, and the
description suffix exactly when a description is present. -/
theorem step_string_shape (s : Step) :
    s.string = s.operation ++ ": " ++ s.output.string ++
      (if s.description = "" then "" else " (" ++ s.description ++ ")") := by
  by_cases hd : s.description = "" <;>
    simp [Step.string, hd, String.append_assoc]

/-- Reading a freshly allocated map object gives the allocated contents. -/
theorem vget_vnew_self (h : Heap) (m : List (String × Value)) :
    ((h.vnew m).1).vget h.vmaps.length = m := by
  simp [Heap.vnew, Heap.vget, List.getD_eq_getElem?_getD, List.getElem?_concat_length]

/-- Allocating a fresh map object does not disturb the existing ones. -/
theorem vget_vnew_lt (h : Heap) (m : List (String × Value)) (a : Nat)
    (ha : a < h.vmaps.length) : ((h.vnew m).1).vget a = h.vget a := by
  simp [Heap.vnew, Heap.vget, List.getD_eq_getElem?_getD, List.getElem?_append_left ha]

/-- Overwriting one map object does not disturb a different one. -/
theorem vget_vset_ne (h : Heap) (a i : Nat) (m : List (String × Value)) (hne : a ≠ i) :
    (h.vset a m).vget i = h.vget i := by
  simp [Heap.vset, Heap.vget, List.getD_eq_getElem?_getD, List.getElem?_set_ne hne]

/-- Overwriting a live map object makes its reads give the new contents. -/
theorem vget_vset_self (h : Heap) (a : Nat) (m : List (String × Value))
    (ha : a < h.vmaps.length) : (h.vset a m).vget a = m := by
  simp [Heap.vset, Heap.vget, List.getD_eq_getElem?_getD, List.getElem?_set_self, ha]

/-- Allocating a string map does not touch the value maps. -/
theorem vget_snew (h : Heap) (m : List (String × String)) (a : Nat) :
    ((h.snew m).1).vget a = h.vget a := rfl

/-- Zero Go Values and every stored value marshalable make any lookup
marshalable. -/
theorem lookupD_marshalable {m : List (String × Value)}
    (hm : ∀ v ∈ m.map Prod.snd, v.val.marshalable = true) (k : String) :
    (lookupD m k).val.marshalable = true := by
  induction m with
  | nil => rfl
  | cons p rest ih =>
    obtain ⟨k1, v1⟩ := p
    by_cases he : k1 = k
    · simpa [lookupD, he] using hm v1 (by simp)
    · simp only [lookupD, he, if_neg, ite_false]
      exact ih (fun v hv => hm v (by simp [hv]))

/-- Bind on a successful Except computation. -/
theorem bind_okE {α β : Type} (a : α) (f : α → Except String β) :
    (Bind.bind (Except.ok a) f : Except String β) = f a := rfl

/-- Success of a bind follows from success of both stages. -/
theorem exceptOk_bind {α β : Type} (e : Except String α) (f : α → Except String β)
    (he : exceptOk e = true) (hf : ∀ a, e = .ok a → exceptOk (f a) = true) :
    exceptOk (Bind.bind e f : Except String β) = true := by
  cases e with
  | error msg => simp [exceptOk] at he
  | ok a => rw [bind_okE]; exact hf a rfl

/-- A structural Except-map succeeds when every element does. -/
theorem mapME_exceptOk {α β : Type} {f : α → Except String β} :
    ∀ {l : List α}, (∀ a ∈ l, exceptOk (f a) = true) → exceptOk (mapME f l) = true := by
  intro l
  induction l with
  | nil => intro _; rfl
  | cons a rest ih =>
    intro hl
    show exceptOk (Bind.bind (f a) fun b =>
      Bind.bind (mapME f rest) fun bs => Except.ok (b :: bs)) = true
    refine exceptOk_bind _ _ (hl a (by simp)) (fun b _ => ?_)
    refine exceptOk_bind _ _ (ih (fun x hx => hl x (by simp [hx]))) (fun bs _ => rfl)

/-- Marshalling a Value succeeds on every marshalable payload. -/
theorem marshalValue_exceptOk (h : Heap) (v : Value) (hv : v.val.marshalable = true) :
    exceptOk (marshalValue h v) = true := by
  refine exceptOk_bind _ _ ?_ (fun dv _ => rfl)
  cases hd : v.val with
  | chanv a => rw [hd] at hv; simp [Datum.marshalable] at hv
  | int n => rfl
  | str s => rfl
  | bool b => rfl
  | ptr a => rfl

/-- Marshalling a value map succeeds when every stored payload is
marshalable. -/
theorem marshalVMap_exceptOk (h : Heap) (m : List (String × Value))
    (hm : ∀ v ∈ m.map Prod.snd, v.val.marshalable = true) :
    exceptOk (marshalVMap h m) = true := by
  refine exceptOk_bind _ _ ?_ (fun fields _ => rfl)
  refine mapME_exceptOk (fun k _ => ?_)
  exact exceptOk_bind _ _
    (marshalValue_exceptOk h (lookupD m k) (lookupD_marshalable hm k))
    (fun jv _ => rfl)

/-- Marshalling a Step succeeds when its input payloads and output payload
are marshalable. -/
theorem marshalStep_exceptOk (h : Heap) (s : Step)
    (hin : ∀ v ∈ (mapVContents h s.inputs).map Prod.snd, v.val.marshalable = true)
    (hout : s.output.val.marshalable = true) :
    exceptOk (marshalStep h s) = true := by
  cases hi : s.inputs with
  | none =>
    unfold marshalStep
    rw [hi]
    refine exceptOk_bind _ _ rfl (fun y _ => ?_)
    refine exceptOk_bind _ _ (marshalValue_exceptOk h s.output hout) (fun outJ _ => ?_)
    cases mapSContents h s.metadata <;> rfl
  | some a =>
    unfold marshalStep
    rw [hi]
    refine exceptOk_bind _ _
      (marshalVMap_exceptOk h (h.vget a) (by simpa [mapVContents, hi] using hin))
      (fun y _ => ?_)
    refine exceptOk_bind _ _ (marshalValue_exceptOk h s.output hout) (fun outJ _ => ?_)
    cases mapSContents h s.metadata <;> rfl



/-- ToJSON succeeds on every trace whose wrapped payloads are all
marshalable. -/
theorem toJSON_exceptOk (h : Heap) (t : Trace) (hsup : t.jsonSupported h = true) :
    exceptOk (Trace.ToJSON h t) = true := by
  unfold Trace.jsonSupported at hsup
  rw [Bool.and_eq_true, Bool.and_eq_true] at hsup
  obtain ⟨⟨hA, hB⟩, hC⟩ := hsup
  unfold Trace.ToJSON
  refine exceptOk_bind _ _
    (marshalVMap_exceptOk h _ (fun v hv => by
      have := List.all_eq_true.mp hA v hv
      simpa using this))
    (fun inputsJ _ => ?_)
  refine exceptOk_bind _ _
    (mapME_exceptOk (fun s hs => by
      have hstep := List.all_eq_true.mp hB s hs
      rw [Bool.and_eq_true] at hstep
      exact marshalStep_exceptOk h s
        (fun v hv => by
          have := List.all_eq_true.mp hstep.1 v hv
          simpa using this)
        hstep.2))
    (fun stepsJ _ => ?_)
  cases hres : t.result with
  | none => exact exceptOk_bind _ _ rfl (fun f2 _ => rfl)
  | some r =>
    rw [hres] at hC
    refine exceptOk_bind (marshalValue h r) _ (marshalValue_exceptOk h r hC) (fun rj _ => ?_)
    exact exceptOk_bind _ _ rfl (fun y _ => rfl)

/-- The Go accumulation of the Trace String method equals the
section-by-section rendering the specification describes. -/
theorem trace_string_eq_spec (h : Heap) (t : Trace) :
    Trace.string h t = traceDisplaySpec h t := by
  by_cases hs : t.steps = []
  · cases hr : t.result <;>
      simp [Trace.string, traceDisplaySpec, hs, hr, foldl_strConcat, inputLine,
            stepLine, step_string_shape, String.append_assoc, strConcat]
  · have hlen : 0 < t.steps.length := List.length_pos.mpr hs
    cases hr : t.result <;>
      simp [Trace.string, traceDisplaySpec, hs, hr, hlen, foldl_strConcat, inputLine,
            stepLine, step_string_shape, String.append_assoc, strConcat]

/-- The displayed text does not depend on the insertion order of the
inputs mapping: two traces agreeing on every displayed field whose input
mappings bind permuted keys to display-equal values render identically. -/
theorem trace_string_input_order (h : Heap) (t1 t2 : Trace)
    (hname : t1.name = t2.name) (hid : t1.id = t2.id) (hsteps : t1.steps = t2.steps)
    (hres : t1.result = t2.result)
    (hk : ((h.vget t1.inputs).map Prod.fst).Perm ((h.vget t2.inputs).map Prod.fst))
    (hv : ∀ k ∈ (h.vget t1.inputs).map Prod.fst,
      goFormat (lookupD (h.vget t1.inputs) k).val = goFormat (lookupD (h.vget t2.inputs) k).val) :
    Trace.string h t1 = Trace.string h t2 := by
  rw [trace_string_eq_spec h t1, trace_string_eq_spec h t2]
  unfold traceDisplaySpec
  rw [hname, hid, hsteps, hres, ← sortStrings_perm hk]
  have hmap : (sortStrings ((h.vget t1.inputs).map Prod.fst)).map
        (fun k => inputLine (h.vget t1.inputs) k) =
      (sortStrings ((h.vget t1.inputs).map Prod.fst)).map
        (fun k => inputLine (h.vget t2.inputs) k) := by
    refine List.map_congr_left (fun k hkmem => ?_)
    unfold inputLine Value.string
    rw [hv k (mem_sortStrings.mp hkmem)]
  rw [hmap]

/-!
Claim theorems.
-/

/-- C1: for every name and every pair of input mappings binding the same
keys (in any insertion order) to display-equivalent values, generateID
yields the identical identifier. -/
theorem generateID_insertion_order_invariant (h : Heap) (name : String) (a1 a2 : Nat)
    (hk : ((h.vget a1).map Prod.fst).Perm ((h.vget a2).map Prod.fst))
    (hv : ∀ k ∈ (h.vget a1).map Prod.fst,
      goFormat (lookupD (h.vget a1) k).val = goFormat (lookupD (h.vget a2) k).val) :
    generateID h name (some a1) = generateID h name (some a2) := by
  unfold generateID
  simp only [mapVContents]
  rw [foldl_feed2 strBytes (fun k => strBytes (goFormat (lookupD (h.vget a1) k).val)),
      foldl_feed2 strBytes (fun k => strBytes (goFormat (lookupD (h.vget a2) k).val)),
      ← sortStrings_perm hk]
  have hmap : (sortStrings ((h.vget a1).map Prod.fst)).map
        (fun k => strBytes k ++ strBytes (goFormat (lookupD (h.vget a1) k).val)) =
      (sortStrings ((h.vget a1).map Prod.fst)).map
        (fun k => strBytes k ++ strBytes (goFormat (lookupD (h.vget a2) k).val)) := by
    refine List.map_congr_left (fun k hkmem => ?_)
    rw [hv k (mem_sortStrings.mp hkmem)]
  rw [hmap]

/-- Witness for C1: the mapping a ↦ 1, b ↦ 2 built in its two insertion
orders receives the same identifier. -/
theorem generateID_insertion_order_invariant_witness :
    generateID hEx "test" (some 0) = generateID hEx "test" (some 1) :=
  generateID_insertion_order_invariant hEx "test" 0 1 (by decide) (by decide)

/-- C2: after the first successful SetResult, the trace keeps that result
and end time, and every subsequent AddStep, SetResult and WithMetadata
call fails with the InvalidState error, changing neither the trace (step
sequence included) nor the heap (metadata mapping included). -/
theorem trace_completed_rejects_mutation (t : Trace) (r : Value) (now : Nat) (t1 : Trace)
    (hs : t.SetResult r now = (none, t1)) :
    t1.result = some r ∧ t1.endTime = some now ∧ t1.IsCompleted = true ∧
    (∀ s, t1.AddStep s = (some "cannot add step to completed trace", t1)) ∧
    (∀ r2 n2, t1.SetResult r2 n2 = (some "cannot set result on completed trace", t1)) ∧
    (∀ h k v, t1.WithMetadata h k v = (some "cannot add metadata to completed trace", h, t1)) ∧
    (∀ s, ((t1.AddStep s).2).steps.length = t1.steps.length) ∧
    (∀ h k v, mapSContents ((t1.WithMetadata h k v).2.1) t1.metadata = mapSContents h t1.metadata) := by
  unfold Trace.SetResult at hs
  cases hc : t.completed
  · simp only [hc, Bool.false_eq_true, if_false, Prod.mk.injEq, true_and] at hs
    subst hs
    exact ⟨rfl, rfl, rfl, fun _ => rfl, fun _ _ => rfl, fun _ _ _ => rfl,
           fun _ => rfl, fun _ _ _ => rfl⟩
  · simp [hc] at hs

/-- Witness for C2: a concrete trace finalized once retains its result and
rejects a further AddStep. -/
theorem trace_completed_rejects_mutation_witness :
    tC2b.result = some (NewValue (Datum.int 30)) ∧
    tC2b.AddStep stepC2 = (some "cannot add step to completed trace", tC2b) :=
  have H := trace_completed_rejects_mutation tC2a (NewValue (Datum.int 30)) 1 tC2b rfl
  ⟨H.1, H.2.2.2.1 stepC2⟩

/-- C3 failing input: WithMetadata on a step whose metadata map was
allocated by NewStep writes through the shared map reference, so the
original step's metadata gains the entry in place — the receiver is
mutated, against the documented immutability. -/
theorem step_withMetadata_mutates_original :
    mapSContents stepC3.1 stepC3.2.metadata = [] ∧
    mapSContents stepC3b.1 stepC3.2.metadata = [("author", "test")] ∧
    stepC3b.2.metadata = stepC3.2.metadata := by
  refine ⟨rfl, rfl, rfl⟩

/-- C4 counterexample: the inputs copy is per-entry only; mutating the
pointee of a wrapped `*int` the caller still references changes what the
trace's recorded inputs marshal to, while the stored entries themselves
still hold the shared reference. -/
theorem trace_input_datum_mutation_observable :
    inputANum (Trace.ToJSON trC4.1 trC4.2) = some 1 ∧
    inputANum (Trace.ToJSON hC4m trC4.2) = some 99 ∧
    hC4m.vget trC4.2.inputs = hC4.vget 0 := by
  refine ⟨rfl, rfl, rfl⟩

/-- C4 amended: creation copies the caller's input entries into a fresh
map object, so later overwriting of the caller's mapping (adding,
replacing or removing keys) is not observable in the trace's recorded
inputs. -/
theorem trace_inputs_snapshot (h : Heap) (a : Nat) (name : String) (now : Nat)
    (m' : List (String × Value)) (ha : a < h.vmaps.length) :
    (NewTrace h name (some a) now).2.inputs ≠ a ∧
    ((NewTrace h name (some a) now).1).vget (NewTrace h name (some a) now).2.inputs
      = h.vget a ∧
    (((NewTrace h name (some a) now).1).vset a m').vget
      (NewTrace h name (some a) now).2.inputs = h.vget a := by
  refine ⟨Nat.ne_of_gt ha, ?_, ?_⟩
  · show ((h.vnew (h.vget a)).1.snew []).1.vget h.vmaps.length = h.vget a
    rw [vget_snew, vget_vnew_self]
  · show (((h.vnew (h.vget a)).1.snew []).1.vset a m').vget h.vmaps.length = h.vget a
    rw [vget_vset_ne _ a h.vmaps.length m' (Nat.ne_of_lt ha), vget_snew, vget_vnew_self]

/-- Witness for the amended C4: overwriting the caller's map with the
empty map leaves a created trace's recorded inputs untouched. -/
theorem trace_inputs_snapshot_witness :
    (NewTrace hEx "test" (some 0) 0).2.inputs ≠ 0 ∧
    ((NewTrace hEx "test" (some 0) 0).1).vget (NewTrace hEx "test" (some 0) 0).2.inputs
      = hEx.vget 0 ∧
    (((NewTrace hEx "test" (some 0) 0).1).vset 0 []).vget
      (NewTrace hEx "test" (some 0) 0).2.inputs = hEx.vget 0 :=
  trace_inputs_snapshot hEx 0 "test" 0 [] (by decide)

/-- C5: generateID returns `"<name>-<hex-prefix>"` where the hex prefix
encodes the first 8 bytes of the SHA-256 digest of the name bytes
followed, per lexicographically sorted key, by the key bytes and the
display text of the key's wrapped payload — the stream deriveID words out
of the specification. -/
theorem generateID_eq_deriveID (h : Heap) (name : String) (inputs : Option Nat) :
    generateID h name inputs = deriveID h name inputs := by
  simp only [generateID, deriveID]
  rw [foldl_feed2 strBytes (fun k => strBytes (goFormat (lookupD (mapVContents h inputs) k).val))]

/-- C6: identifier derivation folds in only the display text, not the type
tag: wrapping the integer 10 and wrapping the text "10" are distinct
Values yet produce identical identifiers. -/
theorem generateID_ignores_type_tag :
    NewValue (Datum.int 10) ≠ NewValue (Datum.str "10") ∧
    generateID hC6 "test" (some 0) = generateID hC6 "test" (some 1) := by
  refine ⟨by decide, rfl⟩

/-- C7: the completion flag is monotonic: false at construction, preserved
by AddStep and WithMetadata, set (and kept) true by SetResult — the only
operation that changes it — and reported verbatim by IsCompleted; no
operation of the interface returns it from true to false. -/
theorem completed_flag_monotonic :
    (∀ h name inputs now, ((NewTrace h name inputs now).2).completed = false) ∧
    (∀ (t : Trace) (s : Step), ((t.AddStep s).2).completed = t.completed) ∧
    (∀ (t : Trace) (r : Value) (now : Nat), ((t.SetResult r now).2).completed = true) ∧
    (∀ (h : Heap) (t : Trace) (k v : String),
      ((Trace.WithMetadata h t k v).2.2).completed = t.completed) ∧
    (∀ (t : Trace), t.IsCompleted = t.completed) := by
  refine ⟨?_, ?_, ?_, ?_, ?_⟩
  · intro h name inputs now; cases inputs <;> rfl
  · intro t s; unfold Trace.AddStep; cases hc : t.completed <;> simp [hc]
  · intro t r now; unfold Trace.SetResult; cases hc : t.completed <;> simp [hc]
  · intro h t k v
    unfold Trace.WithMetadata
    cases hc : t.completed <;> cases hm : t.metadata <;> simp [hc, hm]
  · intro t; rfl

/-- C8: the display renders the header, the inputs section over
lexicographically sorted keys (insertion order of the mapping is
irrelevant), the steps section only when a step exists with one numbered
line per step in append order in the Step display form, and the result
line only when the result is set. -/
theorem trace_display_correct :
    (∀ h t, Trace.string h t = traceDisplaySpec h t) ∧
    (∀ h t1 t2, t1.name = t2.name → t1.id = t2.id → t1.steps = t2.steps →
      t1.result = t2.result →
      ((h.vget t1.inputs).map Prod.fst).Perm ((h.vget t2.inputs).map Prod.fst) →
      (∀ k ∈ (h.vget t1.inputs).map Prod.fst,
        goFormat (lookupD (h.vget t1.inputs) k).val
          = goFormat (lookupD (h.vget t2.inputs) k).val) →
      Trace.string h t1 = Trace.string h t2) :=
  ⟨trace_string_eq_spec, trace_string_input_order⟩

/-- Witness for C8: two traces over the two insertion orders of the same
mapping display identically. -/
theorem trace_display_correct_witness :
    Trace.string hEx tC8a = Trace.string hEx tC8b :=
  trace_display_correct.2 hEx tC8a tC8b rfl rfl rfl rfl (by decide) (by decide)

/-- C9 counterexample: ToJSON is not total — on a trace wrapping a channel
input it returns the JSON encoder's unsupported-type error instead of a
document. -/
theorem toJSON_not_total :
    exceptOk (Trace.ToJSON trC9.1 trC9.2) = false ∧
    Trace.ToJSON trC9.1 trC9.2 = .error "json: unsupported type: chan int" := by
  refine ⟨rfl, rfl⟩

/-- C9 amended: construction, identifier derivation and the text renderer
are total; create(name, nil) yields a valid trace whose input mapping is
an allocated (non-nil) empty map and whose identifier is the derived one;
and ToJSON returns a document on every trace whose wrapped payloads the
JSON encoder supports. -/
theorem constructors_total_and_nil_inputs :
    (∀ h name now,
      (NewTrace h name none now).2.inputs < ((NewTrace h name none now).1).vmaps.length ∧
      ((NewTrace h name none now).1).vget (NewTrace h name none now).2.inputs = [] ∧
      (NewTrace h name none now).2.id =
        name ++ "-" ++ hexBytes ((sha256 (strBytes name)).take 8) ∧
      (NewTrace h name none now).2.id = generateID h name none ∧
      (NewTrace h name none now).2.completed = false ∧
      (NewTrace h name none now).2.steps = [] ∧
      (NewTrace h name none now).2.result = none) ∧
    (∀ h t, t.jsonSupported h = true → exceptOk (Trace.ToJSON h t) = true) := by
  constructor
  · intro h name now
    refine ⟨?_, ?_, rfl, rfl, rfl, rfl, rfl⟩
    · show h.vmaps.length < (h.vmaps ++ [[]]).length
      simp
    · show ((h.vnew []).1.snew []).1.vget h.vmaps.length = []
      rw [vget_snew, vget_vnew_self]
  · exact toJSON_exceptOk

/-- Witness for C9 amended: a trace over integer inputs serializes
successfully. -/
theorem constructors_total_and_nil_inputs_witness :
    exceptOk (Trace.ToJSON (NewTrace hEx "test" (some 0) 0).1
      (NewTrace hEx "test" (some 0) 0).2) = true :=
  constructors_total_and_nil_inputs.2 (NewTrace hEx "test" (some 0) 0).1
    (NewTrace hEx "test" (some 0) 0).2 (by decide)

/-- C10: NewStep stores the caller's inputs map reference without a copy:
the step records the address itself, its recorded inputs read as whatever
the caller's map currently holds — before and after any later mutation —
and the step keeps that address after being appended to a trace. -/
theorem newStep_aliases_caller_inputs (h : Heap) (a : Nat) (op : String) (out : Value)
    (now : Nat) (ha : a < h.vmaps.length) :
    (NewStep h op (some a) out now).2.inputs = some a ∧
    mapVContents (NewStep h op (some a) out now).1
      (NewStep h op (some a) out now).2.inputs = h.vget a ∧
    (∀ m', mapVContents (((NewStep h op (some a) out now).1).vset a m')
      (NewStep h op (some a) out now).2.inputs = m') ∧
    (∀ (t : Trace), t.completed = false →
      ((t.AddStep (NewStep h op (some a) out now).2).2).steps.getLast? =
        some (NewStep h op (some a) out now).2) := by
  refine ⟨rfl, rfl, ?_, ?_⟩
  · intro m'
    show ((h.snew []).1.vset a m').vget a = m'
    exact vget_vset_self _ a m' ha
  · intro t ht
    unfold Trace.AddStep
    simp [ht, List.getLast?_concat]

/-- Witness for C10: after the caller empties their map, the step created
over it records the empty contents. -/
theorem newStep_aliases_caller_inputs_witness :
    mapVContents (((NewStep hEx "add" (some 0) (NewValue (Datum.int 3)) 0).1).vset 0 [])
      (NewStep hEx "add" (some 0) (NewValue (Datum.int 3)) 0).2.inputs = [] :=
  ((newStep_aliases_caller_inputs hEx 0 "add" (NewValue (Datum.int 3)) 0 (by decide)).2.2.1) []
